import Mathlib

/-! LockedInterview question service: pool selection and sampling

A verification development over `server.js`: the question banks, the helper
`getQuestionPool` that selects a bank from the request filters, the helper
`sampleQuestions` that shuffles a copy of a bank and truncates it, and the
handler of `GET /api/questions` that composes the two.

JavaScript arrays are modelled as lists, `undefined` arguments as `none`,
and the calls of `Math.random` as a draw function giving, for each loop
index `i`, the index `j = Math.floor(Math.random() * (i + 1))`, which lies
in `0..i`. The handler is modelled over the values `req.query` can hold
(`undefined`, a string, an array, an object); an error thrown while it runs
is the answer with status 500.
-/

namespace LockedInterview

/-! ## Question banks -/

/-- A question record of the banks: `{ text, tags }`. -/
structure Question where
  text : String
  tags : List String
  deriving DecidableEq, Repr

def BEHAVIORAL_GENERIC : List Question :=
  [ { text := "Tell me about a time you disagreed with a teammate and how you resolved it.",
      tags := ["Behavioral", "Conflict"] },
    { text := "Describe a project you’re most proud of. What was your role and what was the outcome?",
      tags := ["Behavioral", "Ownership"] },
    { text := "Tell me about a time you had to learn something quickly to succeed.",
      tags := ["Behavioral", "Learning"] },
    { text := "Walk me through a time when you made a mistake at work or school. What did you do afterwards?",
      tags := ["Behavioral", "Failure"] },
    { text := "Give an example of working under a tight deadline. How did you manage priorities?",
      tags := ["Behavioral", "Pressure"] },
    { text := "Tell me about a time you had to influence someone without direct authority.",
      tags := ["Behavioral", "Influence"] },
    { text := "Describe a time you received tough feedback. How did you respond?",
      tags := ["Behavioral", "Feedback"] },
    { text := "Tell me about a situation where you had to deal with ambiguity.",
      tags := ["Behavioral", "Ambiguity"] } ]

def TECH_SWE_FAANG_INTERN : List Question :=
  [ { text := "Given an array of integers and a target value, return indices of any two numbers whose sum equals the target.",
      tags := ["Technical", "Arrays"] },
    { text := "Given a string, determine if it contains all unique characters. Try solving it with and without extra data structures.",
      tags := ["Technical", "Strings"] },
    { text := "Given a singly linked list, reverse the list in place and return the new head.",
      tags := ["Technical", "Linked List"] },
    { text := "Given an array of integers, move all zeros to the end while keeping the relative order of non-zero elements.",
      tags := ["Technical", "Arrays", "Two Pointers"] },
    { text := "Implement a function that checks whether two strings are anagrams of each other.",
      tags := ["Technical", "Strings", "Hash Map"] },
    { text := "Given a sorted array of integers and a target, return the index of the target or the position where it should be inserted.",
      tags := ["Technical", "Binary Search"] },
    { text := "Design a data structure that supports push, pop, top, and retrieving the minimum element in constant time.",
      tags := ["Technical", "Stack", "Design"] },
    { text := "Given the root of a binary tree, return its level-order traversal (values by level).",
      tags := ["Technical", "Trees", "BFS"] },
    { text := "Given an array of stock prices, compute the maximum profit from a single buy and a single sell.",
      tags := ["Technical", "Arrays"] },
    { text := "You are given a staircase with n steps and you can climb 1 or 2 steps at a time. How many distinct ways can you climb to the top?",
      tags := ["Technical", "Dynamic Programming"] } ]

def TECH_SWE_GENERIC : List Question :=
  [ { text := "Implement a basic LRU (least recently used) cache with get and put operations.",
      tags := ["Technical", "Design", "Hash Map"] },
    { text := "Given an unsorted array, return the length of the longest consecutive elements sequence.",
      tags := ["Technical", "Arrays"] },
    { text := "Given a matrix, return its elements in spiral order starting from the top-left corner.",
      tags := ["Technical", "Matrix"] },
    { text := "Given an array of meeting time intervals, determine if a single person could attend all meetings.",
      tags := ["Technical", "Intervals"] },
    { text := "Given a string containing parentheses, determine if the sequence is valid (properly opened and closed).",
      tags := ["Technical", "Stack"] } ]

def TECH_DS_GENERIC : List Question :=
  [ { text := "Explain how you would detect outliers in a univariate dataset. What techniques can you use?",
      tags := ["Technical", "Statistics"] },
    { text := "Describe the bias-variance tradeoff. How does it influence your choice of model complexity?",
      tags := ["Technical", "ML Theory"] },
    { text := "You have imbalanced classes in a classification problem. What approaches can you use to handle this?",
      tags := ["Technical", "ML Practice"] } ]

def TECH_PM_GENERIC : List Question :=
  [ { text := "Design a system to send notifications to millions of users when a friend posts an update. What components would you include?",
      tags := ["Technical", "System Design"] },
    { text := "How would you instrument a new feature to understand whether it is successful? Which metrics would you track?",
      tags := ["Technical", "Product Sense"] } ]

/-! ## Pool selection -/

/-- Lower-casing of one character: `A`..`Z` go to `a`..`z`, every other
character is kept. -/
def toLowerChar (c : Char) : Char :=
  if 65 ≤ c.toNat ∧ c.toNat ≤ 90 then Char.ofNat (c.toNat + 32) else c

/-- Model of `String.prototype.toLowerCase`, character by character. On ASCII
input it is the ECMAScript function. A non-ASCII character is kept as it is,
where ECMAScript may map it to other characters; the only non-ASCII character
whose ECMAScript lower-casing consists of ASCII letters alone is U+212A
(Kelvin sign, to `k`), and none of the strings `getQuestionPool` compares
against contains `k`, so every comparison in `getQuestionPool` has the same
outcome under both. A JavaScript string is read as the list of its
characters. -/
def toLowerCase (s : String) : String :=
  ⟨s.data.map toLowerChar⟩

/-- The expression `x || d` for a string or `undefined` `x`: `undefined` and the
empty string are falsy and give `d`. -/
def orDefault (x : Option String) (d : String) : String :=
  match x with
  | none => d
  | some s => if s = "" then d else s

set_option linter.unusedVariables false in
/-- Helper `getQuestionPool(type, role, level, style)`: choose the pool from
type / role / level / style. -/
def getQuestionPool (type role level style : Option String) : List Question :=
  let normalizedType := toLowerCase (orDefault type "behavioral")
  let normalizedRole := toLowerCase (orDefault role "SWE")
  let normalizedStyle := toLowerCase (orDefault style "Generic")
  if normalizedType = "technical" then
    if normalizedRole = "swe" then
      if normalizedStyle = "faang" then
        TECH_SWE_FAANG_INTERN
      else
        TECH_SWE_GENERIC
    else if normalizedRole = "data scientist" then
      TECH_DS_GENERIC
    else if normalizedRole = "product manager" then
      TECH_PM_GENERIC
    else
      TECH_SWE_GENERIC
  else
    BEHAVIORAL_GENERIC

/-! ## Sampling -/

/-- The outcomes of the calls of `Math.random` in one run of the shuffle: for
the loop index `i`, the value of `Math.floor(Math.random() * (i + 1))`, an index
in `0..i`. -/
abbrev Draws := (i : Nat) → Fin (i + 1)

/-- The destructuring swap `[arr[i], arr[j]] = [arr[j], arr[i]]`: both elements
are read first, then `arr[i]` and `arr[j]` are written in that order. The loop
calls it with `j ≤ i < arr.length` only; for an index outside the array the
model leaves the array as it is. -/
def swapAt {α : Type} (arr : List α) (i j : Nat) : List α :=
  match arr[i]?, arr[j]? with
  | some a, some b => (arr.set i b).set j a
  | _, _ => arr

/-- The loop `for (let i = ...; i > 0; i--)` of `sampleQuestions`, entered with
loop index `i`: swap `arr[i]` with `arr[j]` for the drawn `j`, then go on with
`i - 1`, until `i` is `0`. -/
def shuffleLoop {α : Type} (draw : Draws) : Nat → List α → List α
  | 0, arr => arr
  | i + 1, arr => shuffleLoop draw i (swapAt arr (i + 1) (draw (i + 1)).val)

/-- The shuffle of `sampleQuestions`: the loop started at `arr.length - 1`. -/
def shuffle {α : Type} (draw : Draws) (arr : List α) : List α :=
  shuffleLoop draw (arr.length - 1) arr

/-- `Array.prototype.slice(0, end)` for an integer `end`: a negative `end`
counts from the end of the array (`max(len + end, 0)`), any other is capped at
the length; the elements before that position are returned. -/
def slice0 {α : Type} (arr : List α) (stop : Int) : List α :=
  let len : Int := arr.length
  let final : Int := if stop < 0 then max (len + stop) 0 else min stop len
  arr.take final.toNat

/-- Helper `sampleQuestions(pool, count = 5)`: copy the pool, shuffle the copy,
return `arr.slice(0, Math.min(count, arr.length))`. An omitted `count` is `none`. -/
def sampleQuestions {α : Type} (draw : Draws) (pool : List α)
    (count : Option Int) : List α :=
  let count := count.getD 5
  let arr := shuffle draw pool
  slice0 arr (min count (arr.length : Int))

/-! ## The questions endpoint -/

/-- A value of `req.query` as Express parses it: `undefined` for a key that is
not in the query string, a string for a key given once, an array for a
repeated key (`role=SWE&role=PM`), an object for a bracketed key
(`role[a]=b`). Entries of arrays and objects are kept as strings; the handler
never looks inside them. -/
inductive QueryValue where
  | undefined
  | str (s : String)
  | array (items : List String)
  | object (fields : List (String × String))
  deriving DecidableEq, Repr

/-- The error thrown when a value that is not a function is called. -/
inductive JsError where
  | typeError
  deriving DecidableEq, Repr

/-- The destructuring default `{ x = d } = req.query`: `d` when the value is
`undefined`, the value otherwise. -/
def withDefault (x : QueryValue) (d : String) : QueryValue :=
  match x with
  | .undefined => .str d
  | v => v

/-- The expression `x || d` on a query value: `undefined` and the empty string
are falsy and give `d`; every other string, and every array and object, is
truthy and is the result. -/
def orDefaultValue (x : QueryValue) (d : String) : QueryValue :=
  match x with
  | .undefined => .str d
  | .str s => if s = "" then .str d else .str s
  | v => v

/-- The call `v.toLowerCase()`: the lower-cased string for a string; an array
or object has no function `toLowerCase`, so the call throws a `TypeError`, as
does the property access on `undefined`. -/
def callToLowerCase : QueryValue → Except JsError String
  | .str s => .ok (toLowerCase s)
  | _ => .error .typeError

set_option linter.unusedVariables false in
/-- The function `getQuestionPool(type, role, level, style)` on the values the
handler passes to it: the three normalisations are evaluated first, in the
order type, role, style, and each throws on an array or object; then the pool
is chosen as in `getQuestionPool`. -/
def getQuestionPoolOfQuery (type role level style : QueryValue) :
    Except JsError (List Question) :=
  match callToLowerCase (orDefaultValue type "behavioral") with
  | .error e => .error e
  | .ok normalizedType =>
    match callToLowerCase (orDefaultValue role "SWE") with
    | .error e => .error e
    | .ok normalizedRole =>
      match callToLowerCase (orDefaultValue style "Generic") with
      | .error e => .error e
      | .ok normalizedStyle =>
        if normalizedType = "technical" then
          if normalizedRole = "swe" then
            if normalizedStyle = "faang" then
              .ok TECH_SWE_FAANG_INTERN
            else
              .ok TECH_SWE_GENERIC
          else if normalizedRole = "data scientist" then
            .ok TECH_DS_GENERIC
          else if normalizedRole = "product manager" then
            .ok TECH_PM_GENERIC
          else
            .ok TECH_SWE_GENERIC
        else
          .ok BEHAVIORAL_GENERIC

/-- The answer to a request of `GET /api/questions`: the body
`{ questions }` of `res.json`, or, when the handler throws, the status 500
with which Express answers, without questions. -/
inductive Response where
  | json (questions : List Question)
  | serverError
  deriving DecidableEq, Repr

/-- The handler of `GET /api/questions`: the four query parameters, with their
defaults when `undefined`, select the pool, of which 5 questions are sampled
and sent. The handler catches nothing: an error thrown by `getQuestionPool`
ends the request with status 500. -/
def questionsHandler (draw : Draws) (type role level style : QueryValue) : Response :=
  let type := withDefault type "behavioral"
  let role := withDefault role "SWE"
  let level := withDefault level "Intern"
  let style := withDefault style "Generic"
  match getQuestionPoolOfQuery type role level style with
  | .error _ => .serverError
  | .ok pool => .json (sampleQuestions draw pool (some 5))

/-! ## Vocabulary of the statements -/

/-- Two characters that are equal, or are the upper-case and the lower-case
form of one ASCII letter (in either order). -/
def sameLetter (c d : Char) : Prop :=
  c = d ∨ (65 ≤ c.toNat ∧ c.toNat ≤ 90 ∧ d.toNat = c.toNat + 32) ∨
    (65 ≤ d.toNat ∧ d.toNat ≤ 90 ∧ c.toNat = d.toNat + 32)

instance (c d : Char) : Decidable (sameLetter c d) := by
  unfold sameLetter; infer_instance

/-- Two strings that differ only in the case of ASCII letters. -/
def caseVariant (s t : String) : Prop :=
  List.Forall₂ sameLetter s.data t.data

instance (s t : String) : Decidable (caseVariant s t) := by
  unfold caseVariant; infer_instance

/-- Two arguments, each a string or absent, that differ only in the case of
ASCII letters: both absent, or both present and case variants. -/
def caseVariantArg : Option String → Option String → Prop
  | none, none => True
  | some s, some t => caseVariant s t
  | _, _ => False

instance (x y : Option String) : Decidable (caseVariantArg x y) := by
  cases x <;> cases y <;> unfold caseVariantArg <;> infer_instance

/-- The five question banks defined by the server. -/
def definedPools : List (List Question) :=
  [BEHAVIORAL_GENERIC, TECH_SWE_FAANG_INTERN, TECH_SWE_GENERIC, TECH_DS_GENERIC,
    TECH_PM_GENERIC]

/-- A string or absent parameter as a value of `req.query`. -/
def ofOption : Option String → QueryValue
  | none => .undefined
  | some s => .str s

/-- The outcome in which every draw is `0` (`Math.random()` returns `0` each
time). -/
def firstDraws : Draws := fun _ => 0

/-- The draw vector `(j_{n-1}, ..., j_1)` of one shuffle of an array of length
`n`: the component `k` is the draw made at loop index `k + 1`, an index in
`0..k+1`. -/
abbrev DrawVec (n : Nat) := (k : Fin (n - 1)) → Fin (k.val + 2)

/-- The draws of a draw vector: the draw at loop index `i` is its component
`i - 1`. The loop over an array of length `n` reads the draws at the indices
`1..n-1` only; the others are set to `0`. -/
def DrawVec.toDraws {n : Nat} (v : DrawVec n) : Draws := fun i =>
  if h : 1 ≤ i ∧ i < n then
    ⟨(v ⟨i - 1, by omega⟩).val, by
      have hlt := (v ⟨i - 1, by omega⟩).isLt
      simp only [] at hlt
      omega⟩
  else 0

/-! ## Arrays as mutable objects -/

/-- The store of arrays: a JavaScript array is a mutable object held by
reference; a reference is an index into the store. -/
abbrev Store (α : Type) := List (List α)

/-- The array a reference points to. -/
def readArray {α : Type} (s : Store α) (r : Nat) : List α :=
  (s[r]?).getD []

/-- Creation of a new array with the given elements: the array is added to the
store, and the new store and the reference of the array are returned. -/
def allocArray {α : Type} (s : Store α) (a : List α) : Store α × Nat :=
  (s ++ [a], s.length)

/-- The statement `[arr[i], arr[j]] = [arr[j], arr[i]]` on the array that `arr`
refers to: the array is changed in place, every other array is left alone. -/
def swapRef {α : Type} (s : Store α) (arr i j : Nat) : Store α :=
  s.set arr (swapAt (readArray s arr) i j)

/-- The loop of `sampleQuestions` on the array that `arr` refers to, entered
with loop index `i`. -/
def shuffleLoopRef {α : Type} (draw : Draws) (arr : Nat) : Nat → Store α → Store α
  | 0, s => s
  | i + 1, s => shuffleLoopRef draw arr i (swapRef s arr (i + 1) (draw (i + 1)).val)

/-- The function `sampleQuestions(pool, count = 5)` with its arrays in the
store: `[...pool]` creates the array `arr` with the elements of `pool`, the
loop swaps elements of `arr` in place, and `arr.slice(..)` creates the array
that is returned. The result is the store after the call and the reference of
the returned array. -/
def sampleQuestionsRef {α : Type} (draw : Draws) (s : Store α) (pool : Nat)
    (count : Option Int) : Store α × Nat :=
  let count := count.getD 5
  let (s1, arr) := allocArray s (readArray s pool)
  let s2 := shuffleLoopRef draw arr ((readArray s1 arr).length - 1) s1
  allocArray s2 (slice0 (readArray s2 arr) (min count ((readArray s2 arr).length : Int)))

/-- A store holding the bank `TECH_DS_GENERIC` at reference `0` and the bank
`TECH_PM_GENERIC` at reference `1`. -/
def twoBanksStore : Store Question := [TECH_DS_GENERIC, TECH_PM_GENERIC]

/-! ## Pool selection: theorems -/

theorem toLowerChar_of_sameLetter {c d : Char} (h : sameLetter c d) :
    toLowerChar c = toLowerChar d := by
  rcases h with h | ⟨h1, h2, h3⟩ | ⟨h1, h2, h3⟩
  · rw [h]
  · have hd : ¬ (65 ≤ d.toNat ∧ d.toNat ≤ 90) := by omega
    simp only [toLowerChar, h1, h2, and_self, if_true, hd, if_false]
    rw [← h3, Char.ofNat_toNat]
  · have hc : ¬ (65 ≤ c.toNat ∧ c.toNat ≤ 90) := by omega
    simp only [toLowerChar, h1, h2, and_self, if_true, hc, if_false]
    rw [← h3, Char.ofNat_toNat]

theorem map_toLowerChar_of_forall₂ {l m : List Char} (h : List.Forall₂ sameLetter l m) :
    l.map toLowerChar = m.map toLowerChar := by
  induction h with
  | nil => rfl
  | cons hcd _ ih => rw [List.map_cons, List.map_cons, toLowerChar_of_sameLetter hcd, ih]

theorem toLowerCase_of_caseVariant {s t : String} (h : caseVariant s t) :
    toLowerCase s = toLowerCase t := by
  unfold toLowerCase
  rw [map_toLowerChar_of_forall₂ h]

theorem eq_empty_iff_of_caseVariant {s t : String} (h : caseVariant s t) :
    s = "" ↔ t = "" := by
  unfold caseVariant at h
  have hl := h.length_eq
  constructor
  · intro hs
    subst hs
    apply String.ext
    exact List.eq_nil_of_length_eq_zero (by simpa using hl.symm)
  · intro ht
    subst ht
    apply String.ext
    exact List.eq_nil_of_length_eq_zero (by simpa using hl)

theorem orDefault_of_caseVariantArg {x y : Option String} (h : caseVariantArg x y)
    (d : String) : toLowerCase (orDefault x d) = toLowerCase (orDefault y d) := by
  cases x with
  | none =>
    cases y with
    | none => rfl
    | some t => exact absurd h (by simp [caseVariantArg])
  | some s =>
    cases y with
    | none => exact absurd h (by simp [caseVariantArg])
    | some t =>
      have hv : caseVariant s t := h
      have he := eq_empty_iff_of_caseVariant hv
      by_cases hs : s = ""
      · have ht : t = "" := he.mp hs
        simp [orDefault, hs, ht]
      · have ht : ¬ t = "" := fun ht => hs (he.mpr ht)
        simp only [orDefault, hs, ht, if_false]
        exact toLowerCase_of_caseVariant hv

theorem toLowerCase_ne_empty {s : String} (h : s ≠ "") : toLowerCase s ≠ "" := by
  intro hl
  apply h
  apply String.ext
  have : (toLowerCase s).data = [] := by rw [hl]
  simpa [toLowerCase] using this

/-- If the lower-cased string is not empty, the string itself is not empty, so
`x || d` is `x`. -/
theorem orDefault_some_of_lower {s d v : String} (h : toLowerCase s = v) (hv : v ≠ "") :
    orDefault (some s) d = s := by
  have hs : s ≠ "" := by
    intro hs
    subst hs
    exact hv (by rw [← h]; rfl)
  simp [orDefault, hs]

/-- C4: for a type that is "technical" and a role that is "swe", both in any
letter case, and any level, `getQuestionPool` returns `TECH_SWE_FAANG_INTERN`
when the style is "faang" in any letter case, and `TECH_SWE_GENERIC` for every
other style, an absent style included. -/
theorem getQuestionPool_technical_swe (t r : String) (level : Option String)
    (ht : toLowerCase t = "technical") (hr : toLowerCase r = "swe") :
    (∀ s, toLowerCase s = "faang" →
        getQuestionPool (some t) (some r) level (some s) = TECH_SWE_FAANG_INTERN) ∧
    (∀ s, toLowerCase s ≠ "faang" →
        getQuestionPool (some t) (some r) level (some s) = TECH_SWE_GENERIC) ∧
    getQuestionPool (some t) (some r) level none = TECH_SWE_GENERIC := by
  have hot := orDefault_some_of_lower (d := "behavioral") ht (by decide)
  have hor := orDefault_some_of_lower (d := "SWE") hr (by decide)
  refine ⟨?_, ?_, ?_⟩
  · intro s hl
    have hos := orDefault_some_of_lower (d := "Generic") hl (by decide)
    simp [getQuestionPool, hot, hor, hos, ht, hr, hl]
  · intro s hl
    have hne : toLowerCase (orDefault (some s) "Generic") ≠ "faang" := by
      by_cases hs : s = ""
      · subst hs; decide
      · simpa [orDefault, hs] using hl
    simp [getQuestionPool, hot, hor, ht, hr, hne]
  · have hne : toLowerCase (orDefault none "Generic") ≠ "faang" := by decide
    simp [getQuestionPool, hot, hor, ht, hr, hne]

theorem getQuestionPool_technical_swe_witness :
    (toLowerCase "TeChNiCaL" = "technical" ∧ toLowerCase "SWE" = "swe") ∧
    getQuestionPool (some "TeChNiCaL") (some "SWE") (some "Intern") (some "FaAnG")
      = TECH_SWE_FAANG_INTERN ∧
    getQuestionPool (some "TeChNiCaL") (some "SWE") (some "Intern") (some "Generic")
      = TECH_SWE_GENERIC ∧
    getQuestionPool (some "TeChNiCaL") (some "SWE") (some "Intern") none
      = TECH_SWE_GENERIC :=
  have h := getQuestionPool_technical_swe "TeChNiCaL" "SWE" (some "Intern")
    (by decide) (by decide)
  ⟨⟨by decide, by decide⟩, h.1 "FaAnG" (by decide), h.2.1 "Generic" (by decide), h.2.2⟩

/-- C5: for a type that is "technical" in any letter case and any level and
style, `getQuestionPool` returns `TECH_DS_GENERIC` when the lower-cased role
is "data scientist", `TECH_PM_GENERIC` when it is "product manager", and
`TECH_SWE_GENERIC` when it is none of "swe", "data scientist" and
"product manager". The lower-cased role is the `normalizedRole` of the code:
the role, or "SWE" for an absent or empty role, in lower case. -/
theorem getQuestionPool_technical_other_roles (t : String)
    (role level style : Option String) (ht : toLowerCase t = "technical") :
    (toLowerCase (orDefault role "SWE") = "data scientist" →
        getQuestionPool (some t) role level style = TECH_DS_GENERIC) ∧
    (toLowerCase (orDefault role "SWE") = "product manager" →
        getQuestionPool (some t) role level style = TECH_PM_GENERIC) ∧
    (toLowerCase (orDefault role "SWE") ≠ "swe" →
      toLowerCase (orDefault role "SWE") ≠ "data scientist" →
      toLowerCase (orDefault role "SWE") ≠ "product manager" →
        getQuestionPool (some t) role level style = TECH_SWE_GENERIC) := by
  have hot := orDefault_some_of_lower (d := "behavioral") ht (by decide)
  refine ⟨?_, ?_, ?_⟩
  · intro h
    simp [getQuestionPool, hot, ht, h]
  · intro h
    simp [getQuestionPool, hot, ht, h]
  · intro h1 h2 h3
    simp [getQuestionPool, hot, ht, h1, h2, h3]

theorem getQuestionPool_technical_other_roles_witness :
    toLowerCase "Technical" = "technical" ∧
    getQuestionPool (some "Technical") (some "Data Scientist") (some "Senior") (some "FAANG")
      = TECH_DS_GENERIC ∧
    getQuestionPool (some "Technical") (some "PRODUCT MANAGER") (some "Senior") (some "FAANG")
      = TECH_PM_GENERIC ∧
    getQuestionPool (some "Technical") (some "Designer") (some "Senior") (some "FAANG")
      = TECH_SWE_GENERIC :=
  ⟨by decide,
    (getQuestionPool_technical_other_roles "Technical" (some "Data Scientist") (some "Senior")
      (some "FAANG") (by decide)).1 (by decide),
    (getQuestionPool_technical_other_roles "Technical" (some "PRODUCT MANAGER") (some "Senior")
      (some "FAANG") (by decide)).2.1 (by decide),
    (getQuestionPool_technical_other_roles "Technical" (some "Designer") (some "Senior")
      (some "FAANG") (by decide)).2.2 (by decide) (by decide) (by decide)⟩

/-- C6: for a type that is absent, or whose lower-cased value is not
"technical", and for every role, level and style, `getQuestionPool` returns
`BEHAVIORAL_GENERIC`. -/
theorem getQuestionPool_non_technical (type role level style : Option String)
    (h : ∀ t, type = some t → toLowerCase t ≠ "technical") :
    getQuestionPool type role level style = BEHAVIORAL_GENERIC := by
  have hne : toLowerCase (orDefault type "behavioral") ≠ "technical" := by
    cases type with
    | none => decide
    | some t =>
      by_cases hs : t = ""
      · subst hs; decide
      · simpa [orDefault, hs] using h t rfl
  simp [getQuestionPool, hne]

theorem getQuestionPool_non_technical_witness :
    (∀ t, some "system design" = some t → toLowerCase t ≠ "technical") ∧
    getQuestionPool (some "system design") (some "Data Scientist") (some "Intern")
      (some "FAANG") = BEHAVIORAL_GENERIC :=
  ⟨fun t h => by cases h; decide,
    getQuestionPool_non_technical (some "system design") (some "Data Scientist")
      (some "Intern") (some "FAANG") (fun t h => by cases h; decide)⟩

/-- C7: the level argument never influences the selection: for every type,
role and style and every two levels, present or absent, `getQuestionPool`
returns the same pool. -/
theorem getQuestionPool_level_irrelevant (type role style l1 l2 : Option String) :
    getQuestionPool type role l1 style = getQuestionPool type role l2 style :=
  rfl

/-- C8: `getQuestionPool` is total: for every type, role, level and style,
each a string or absent, it returns one of the five defined pools. -/
theorem getQuestionPool_mem_definedPools (type role level style : Option String) :
    getQuestionPool type role level style ∈ definedPools := by
  unfold getQuestionPool definedPools
  simp only []
  split_ifs <;> simp

/-- C9: `getQuestionPool` is case-insensitive in type, role and style: two
argument triples that differ only in the case of ASCII letters give, for every
level, the same pool. -/
theorem getQuestionPool_case_insensitive
    (type type' role role' style style' level : Option String)
    (ht : caseVariantArg type type') (hr : caseVariantArg role role')
    (hs : caseVariantArg style style') :
    getQuestionPool type role level style = getQuestionPool type' role' level style' := by
  unfold getQuestionPool
  simp only [orDefault_of_caseVariantArg ht, orDefault_of_caseVariantArg hr,
    orDefault_of_caseVariantArg hs]

theorem getQuestionPool_case_insensitive_witness :
    (caseVariantArg (some "TECHNICAL") (some "technical") ∧
      caseVariantArg (some "Swe") (some "sWE") ∧
      caseVariantArg (some "FaAnG") (some "faang")) ∧
    getQuestionPool (some "TECHNICAL") (some "Swe") (some "Intern") (some "FaAnG")
      = getQuestionPool (some "technical") (some "sWE") (some "Intern") (some "faang") :=
  ⟨⟨by decide, by decide, by decide⟩,
    getQuestionPool_case_insensitive (some "TECHNICAL") (some "technical") (some "Swe")
      (some "sWE") (some "FaAnG") (some "faang") (some "Intern")
      (by decide) (by decide) (by decide)⟩

/-- C10: absent arguments behave as their defaults: an absent type gives the
same pool as type "behavioral", an absent role the same pool as role "SWE",
an absent style the same pool as style "Generic", for all other arguments. -/
theorem getQuestionPool_absent_defaults (type role level style : Option String) :
    getQuestionPool none role level style
      = getQuestionPool (some "behavioral") role level style ∧
    getQuestionPool type none level style
      = getQuestionPool type (some "SWE") level style ∧
    getQuestionPool type role level none
      = getQuestionPool type role level (some "Generic") :=
  ⟨rfl, rfl, rfl⟩

/-! ## Sampling: length and membership -/

theorem swapAt_cons_succ {α : Type} (x : α) (xs : List α) (i j : Nat) :
    swapAt (x :: xs) (i + 1) (j + 1) = x :: swapAt xs i j := by
  unfold swapAt
  simp only [List.getElem?_cons_succ]
  cases xs[i]? <;> cases xs[j]? <;> simp

theorem swapAt_length {α : Type} (arr : List α) (i j : Nat) :
    (swapAt arr i j).length = arr.length := by
  unfold swapAt
  split <;> simp

theorem cons_set_perm {α : Type} (x b : α) :
    ∀ (xs : List α) (j : Nat), xs[j]? = some b → (b :: xs.set j x).Perm (x :: xs)
  | [], j, h => by simp at h
  | y :: t, 0, h => by
    simp only [List.getElem?_cons_zero, Option.some.injEq] at h
    subst h
    exact List.Perm.swap x y t
  | y :: t, j + 1, h => by
    simp only [List.getElem?_cons_succ] at h
    have ih := cons_set_perm x b t j h
    simp only [List.set_cons_succ]
    exact (List.Perm.swap y b _).trans (((ih.cons y)).trans (List.Perm.swap x y t))

theorem swapAt_perm {α : Type} : ∀ (arr : List α) (i j : Nat), (swapAt arr i j).Perm arr
  | [], i, j => by simp [swapAt]
  | x :: xs, 0, 0 => by simp [swapAt]
  | x :: xs, 0, j + 1 => by
    unfold swapAt
    simp only [List.getElem?_cons_zero, List.getElem?_cons_succ]
    cases h : xs[j]? with
    | none => exact List.Perm.refl _
    | some b =>
      simp only [List.set_cons_zero, List.set_cons_succ]
      exact cons_set_perm x b xs j h
  | x :: xs, i + 1, 0 => by
    unfold swapAt
    simp only [List.getElem?_cons_zero, List.getElem?_cons_succ]
    cases h : xs[i]? with
    | none => exact List.Perm.refl _
    | some a =>
      simp only [List.set_cons_zero, List.set_cons_succ]
      exact cons_set_perm x a xs i h
  | x :: xs, i + 1, j + 1 => by
    rw [swapAt_cons_succ]
    exact (swapAt_perm xs i j).cons x

theorem shuffleLoop_length {α : Type} (draw : Draws) :
    ∀ (i : Nat) (arr : List α), (shuffleLoop draw i arr).length = arr.length
  | 0, arr => rfl
  | i + 1, arr => by
    rw [shuffleLoop, shuffleLoop_length draw i, swapAt_length]

theorem shuffleLoop_perm {α : Type} (draw : Draws) :
    ∀ (i : Nat) (arr : List α), (shuffleLoop draw i arr).Perm arr
  | 0, arr => List.Perm.refl arr
  | i + 1, arr => by
    rw [shuffleLoop]
    exact (shuffleLoop_perm draw i _).trans (swapAt_perm arr _ _)

theorem shuffle_length {α : Type} (draw : Draws) (arr : List α) :
    (shuffle draw arr).length = arr.length :=
  shuffleLoop_length draw _ arr

theorem shuffle_perm {α : Type} (draw : Draws) (arr : List α) :
    (shuffle draw arr).Perm arr :=
  shuffleLoop_perm draw _ arr

theorem slice0_sublist {α : Type} (arr : List α) (stop : Int) :
    (slice0 arr stop).Sublist arr :=
  List.take_sublist _ arr

theorem slice0_of_length_le {α : Type} (arr : List α) (stop : Int)
    (h : (arr.length : Int) ≤ stop) : slice0 arr stop = arr := by
  unfold slice0
  have h0 : ¬ stop < 0 := by omega
  simp only [h0, if_false]
  apply List.take_of_length_le
  omega

theorem sampleQuestions_of_length_le {α : Type} (draw : Draws) (pool : List α)
    (count : Int) (h : (pool.length : Int) ≤ count) :
    sampleQuestions draw pool (some count) = shuffle draw pool := by
  unfold sampleQuestions
  simp only [Option.getD_some]
  apply slice0_of_length_le
  rw [shuffle_length]
  omega

/-- C1, amended: for every pool, every integer count that is not negative
and every outcome of the random draws, `sampleQuestions(pool, count)` returns
a list whose length is exactly `min(count, length of pool)`. -/
theorem sampleQuestions_length {α : Type} (draw : Draws) (pool : List α) (count : Int)
    (h : 0 ≤ count) :
    ((sampleQuestions draw pool (some count)).length : Int)
      = min count (pool.length : Int) := by
  unfold sampleQuestions slice0
  simp only [Option.getD_some, shuffle_length, List.length_take]
  have h0 : ¬ min count (pool.length : Int) < 0 := by omega
  simp only [h0, if_false]
  omega

theorem sampleQuestions_length_witness :
    (0 : Int) ≤ 5 ∧
    ((sampleQuestions firstDraws TECH_DS_GENERIC (some 5)).length : Int)
      = min 5 (TECH_DS_GENERIC.length : Int) :=
  ⟨by decide, sampleQuestions_length firstDraws TECH_DS_GENERIC 5 (by decide)⟩

/-- C1, as stated, fails for a negative count: on the two questions of
`TECH_PM_GENERIC` and count `-1`, `slice(0, -1)` drops the last element of the
shuffled copy, so one question is returned, while `min(count, length)` is `-1`. -/
theorem sampleQuestions_length_negative_count :
    (sampleQuestions firstDraws TECH_PM_GENERIC (some (-1))).length = 1 ∧
    min (-1 : Int) (TECH_PM_GENERIC.length : Int) = -1 ∧
    ((sampleQuestions firstDraws TECH_PM_GENERIC (some (-1))).length : Int)
      ≠ min (-1 : Int) (TECH_PM_GENERIC.length : Int) := by
  decide

/-- C2: for every pool, every count and every outcome of the random draws, the
list returned by `sampleQuestions(pool, count)` is a sub-multiset of the pool:
every returned question is an element of the pool, and when the pool has no
duplicate questions the result has none. -/
theorem sampleQuestions_subperm {α : Type} (draw : Draws) (pool : List α)
    (count : Option Int) :
    (sampleQuestions draw pool count).Subperm pool ∧
    (∀ q, q ∈ sampleQuestions draw pool count → q ∈ pool) ∧
    (pool.Nodup → (sampleQuestions draw pool count).Nodup) := by
  have hsub : (sampleQuestions draw pool count).Subperm pool :=
    (slice0_sublist _ _).subperm.trans (shuffle_perm draw pool).subperm
  refine ⟨hsub, fun q hq => hsub.subset hq, fun hnd => ?_⟩
  obtain ⟨l, hp, hs⟩ := hsub
  exact hp.nodup_iff.mp (hnd.sublist hs)

/-! ## The shuffle as a bijection between draw vectors and orderings -/

theorem swapAt_getElem?_left {α : Type} (arr : List α) (i j : Nat)
    (hi : i < arr.length) (hj : j < arr.length) :
    (swapAt arr i j)[i]? = arr[j]? := by
  unfold swapAt
  rw [List.getElem?_eq_getElem hi, List.getElem?_eq_getElem hj]
  simp only []
  by_cases hij : j = i
  · subst hij
    rw [List.getElem?_set_self (by simpa using hj)]
  · rw [List.getElem?_set_ne hij, List.getElem?_set_self hi]

theorem swapAt_append {α : Type} (p s : List α) (i j : Nat)
    (hi : i < p.length) (hj : j < p.length) :
    swapAt (p ++ s) i j = swapAt p i j ++ s := by
  unfold swapAt
  rw [List.getElem?_append_left hi, List.getElem?_append_left hj,
    List.getElem?_eq_getElem hi, List.getElem?_eq_getElem hj]
  simp only []
  rw [List.set_append_left _ _ hi, List.set_append_left _ _ (by simpa using hj)]

theorem shuffleLoop_append {α : Type} (draw : Draws) (s : List α) :
    ∀ (i : Nat) (p : List α), i < p.length →
      shuffleLoop draw i (p ++ s) = shuffleLoop draw i p ++ s
  | 0, p, _ => rfl
  | i + 1, p, h => by
    have hj : (draw (i + 1)).val < p.length := by
      have := (draw (i + 1)).isLt
      omega
    rw [shuffleLoop, shuffleLoop, swapAt_append p s _ _ h hj]
    exact shuffleLoop_append draw s i _ (by rw [swapAt_length]; omega)

theorem shuffleLoop_congr {α : Type} (d1 d2 : Draws) :
    ∀ (i : Nat) (arr : List α), (∀ k, 1 ≤ k → k ≤ i → d1 k = d2 k) →
      shuffleLoop d1 i arr = shuffleLoop d2 i arr
  | 0, arr, _ => rfl
  | i + 1, arr, h => by
    rw [shuffleLoop, shuffleLoop, h (i + 1) (by omega) (by omega)]
    exact shuffleLoop_congr d1 d2 i _ (fun k h1 h2 => h k h1 (by omega))

/-- After the swap at the last index, the last element is the drawn one. -/
theorem swapAt_last {α : Type} (arr : List α) (i j : Nat) (x : α)
    (hlen : arr.length = i + 2) (hj : j < i + 2) (hx : arr[j]? = some x) :
    swapAt arr (i + 1) j = (swapAt arr (i + 1) j).take (i + 1) ++ [x] := by
  have hl : (swapAt arr (i + 1) j).length = i + 2 := by rw [swapAt_length, hlen]
  have hget : (swapAt arr (i + 1) j)[i + 1]? = some x := by
    rw [swapAt_getElem?_left arr (i + 1) j (by omega) (by omega), hx]
  have hlt : i + 1 < (swapAt arr (i + 1) j).length := by omega
  have hd : (swapAt arr (i + 1) j).drop (i + 1) = [x] := by
    rw [List.drop_eq_getElem_cons hlt, List.drop_of_length_le (by omega)]
    rw [List.getElem?_eq_getElem hlt] at hget
    simpa using hget
  conv_lhs => rw [← List.take_append_drop (i + 1) (swapAt arr (i + 1) j), hd]

/-- The shuffle is injective in the draws it reads: on an array without
duplicates, two draw functions with the same result agree at the loop
indices. -/
theorem shuffleLoop_draws_unique {α : Type} :
    ∀ (i : Nat) (arr : List α), arr.length = i + 1 → arr.Nodup →
      ∀ d1 d2 : Draws, shuffleLoop d1 i arr = shuffleLoop d2 i arr →
        ∀ k, 1 ≤ k → k ≤ i → d1 k = d2 k
  | 0, _, _, _, _, _, _, k, h1, h2 => by omega
  | i + 1, arr, hlen, hnd, d1, d2, heq, k, h1, h2 => by
    have hj1 : (d1 (i + 1)).val < arr.length := by
      have := (d1 (i + 1)).isLt; omega
    have hj2 : (d2 (i + 1)).val < arr.length := by
      have := (d2 (i + 1)).isLt; omega
    have hs1 := swapAt_last arr i (d1 (i + 1)).val arr[(d1 (i + 1)).val] hlen
      (by omega) (List.getElem?_eq_getElem hj1)
    have hs2 := swapAt_last arr i (d2 (i + 1)).val arr[(d2 (i + 1)).val] hlen
      (by omega) (List.getElem?_eq_getElem hj2)
    have hp1 : ((swapAt arr (i + 1) (d1 (i + 1)).val).take (i + 1)).length = i + 1 := by
      rw [List.length_take, swapAt_length, hlen]; omega
    have hp2 : ((swapAt arr (i + 1) (d2 (i + 1)).val).take (i + 1)).length = i + 1 := by
      rw [List.length_take, swapAt_length, hlen]; omega
    rw [shuffleLoop, shuffleLoop, hs1, hs2,
      shuffleLoop_append d1 _ i _ (by omega), shuffleLoop_append d2 _ i _ (by omega)] at heq
    have hll : (shuffleLoop d1 i ((swapAt arr (i + 1) (d1 (i + 1)).val).take (i + 1))).length
        = (shuffleLoop d2 i ((swapAt arr (i + 1) (d2 (i + 1)).val).take (i + 1))).length := by
      rw [shuffleLoop_length, shuffleLoop_length, hp1, hp2]
    obtain ⟨hpre, hlast⟩ := List.append_inj heq hll
    have hx : arr[(d1 (i + 1)).val]? = arr[(d2 (i + 1)).val]? := by
      rw [List.getElem?_eq_getElem hj1, List.getElem?_eq_getElem hj2]
      simpa using hlast
    have hval : (d1 (i + 1)).val = (d2 (i + 1)).val := List.getElem?_inj hj1 hnd hx
    have hd : d1 (i + 1) = d2 (i + 1) := Fin.ext hval
    by_cases hk : k = i + 1
    · subst hk; exact hd
    · rw [← hval] at hpre
      have hnd1 : ((swapAt arr (i + 1) (d1 (i + 1)).val).take (i + 1)).Nodup :=
        ((swapAt_perm arr _ _).nodup_iff.mpr hnd).sublist (List.take_sublist _ _)
      exact shuffleLoop_draws_unique i _ hp1 hnd1 d1 d2 hpre k h1 (by omega)

/-- The shuffle is surjective: every ordering of the array is the result of
some draws. -/
theorem shuffleLoop_draws_exist {α : Type} :
    ∀ (i : Nat) (arr : List α), arr.length = i + 1 →
      ∀ l : List α, l.Perm arr → ∃ d : Draws, shuffleLoop d i arr = l
  | 0, arr, hlen, l, hl => by
    refine ⟨firstDraws, ?_⟩
    obtain ⟨x, hx⟩ := List.length_eq_one.mp hlen
    subst hx
    exact (List.perm_singleton.mp hl).symm
  | i + 1, arr, hlen, l, hl => by
    have hne : l ≠ [] := by
      intro h
      have := hl.length_eq
      rw [h, hlen] at this
      simp at this
    have hdec := List.dropLast_append_getLast hne
    have hmem : l.getLast hne ∈ arr := hl.subset (List.getLast_mem hne)
    obtain ⟨j, hj, hget⟩ := List.getElem_of_mem hmem
    have hs := swapAt_last arr i j (l.getLast hne) hlen (by omega)
      (by rw [List.getElem?_eq_getElem hj, hget])
    have hp : ((swapAt arr (i + 1) j).take (i + 1)).length = i + 1 := by
      rw [List.length_take, swapAt_length, hlen]; omega
    have hperm : l.dropLast.Perm ((swapAt arr (i + 1) j).take (i + 1)) := by
      have h1 : (l.dropLast ++ [l.getLast hne]).Perm
          ((swapAt arr (i + 1) j).take (i + 1) ++ [l.getLast hne]) := by
        rw [hdec, ← hs]
        exact hl.trans (swapAt_perm arr _ _).symm
      exact (List.perm_append_right_iff _).mp h1
    obtain ⟨d, hd⟩ := shuffleLoop_draws_exist i _ hp _ hperm
    let e : Draws := fun k => if h : k = i + 1 then ⟨j, by omega⟩ else d k
    have hej : (e (i + 1)).val = j := by simp [e]
    refine ⟨e, ?_⟩
    rw [shuffleLoop, hej, hs, shuffleLoop_append e _ i _ (by omega),
      shuffleLoop_congr e d i _ (fun k _ h2 => by
        have hk : ¬ k = i + 1 := by omega
        simp [e, hk]), hd, hdec]

theorem DrawVec.toDraws_apply {n : Nat} (v : DrawVec n) (k : Nat) (hk : k < n - 1) :
    (v.toDraws (k + 1)).val = (v ⟨k, hk⟩).val := by
  have h : 1 ≤ k + 1 ∧ k + 1 < n := by omega
  simp [DrawVec.toDraws, h]

theorem prod_fin_add_two (m : Nat) : ∏ x : Fin m, (x.val + 2) = (m + 1).factorial := by
  induction m with
  | zero => simp
  | succ m ih =>
    rw [Fin.prod_univ_castSucc]
    simp only [Fin.coe_castSucc, Fin.val_last]
    rw [ih, Nat.factorial_succ (m + 1)]
    ring

theorem DrawVec.card (n : Nat) : Fintype.card (DrawVec n) = n.factorial := by
  rw [Fintype.card_pi]
  simp only [Fintype.card_fin]
  cases n with
  | zero => simp
  | succ m => exact prod_fin_add_two m

/-- C3: for a pool of `n` pairwise-distinct questions and a count of at least
`n`, `sampleQuestions` as a function of the draw vector `(j_{n-1}, ..., j_1)`
is a bijection onto the orderings of the pool: every result is an ordering of
the pool, every ordering of the pool is the result of exactly one draw vector,
and there are `n!` draw vectors. -/
theorem sampleQuestions_shuffle_bijective {α : Type} (pool : List α) (count : Int)
    (hnd : pool.Nodup) (hc : (pool.length : Int) ≤ count) :
    (∀ v : DrawVec pool.length,
        (sampleQuestions v.toDraws pool (some count)).Perm pool) ∧
    (∀ l : List α, l.Perm pool →
        ∃! v : DrawVec pool.length, sampleQuestions v.toDraws pool (some count) = l) ∧
    Fintype.card (DrawVec pool.length) = pool.length.factorial := by
  refine ⟨fun v => ?_, fun l hl => ?_, DrawVec.card _⟩
  · rw [sampleQuestions_of_length_le _ pool count hc]
    exact shuffle_perm _ pool
  · simp only [sampleQuestions_of_length_le _ pool count hc, shuffle]
    cases hn : pool.length with
    | zero =>
      have hp : pool = [] := List.eq_nil_of_length_eq_zero hn
      subst hp
      have hl0 : l = [] := List.perm_nil.mp hl
      subst hl0
      refine ⟨fun k => absurd k.isLt (by simp), rfl, fun w _ => ?_⟩
      funext k
      exact absurd k.isLt (by simp)
    | succ m =>
      simp only [Nat.add_sub_cancel]
      obtain ⟨d, hd⟩ := shuffleLoop_draws_exist m pool hn l hl
      have hbound : ∀ k : Fin (m + 1 - 1), (d (k.val + 1)).val < k.val + 2 := fun k =>
        (d (k.val + 1)).isLt
      let v : DrawVec (m + 1) := fun k => ⟨(d (k.val + 1)).val, hbound k⟩
      have hv : shuffleLoop v.toDraws m pool = l := by
        rw [← hd]
        apply shuffleLoop_congr
        intro k h1 h2
        obtain ⟨k, rfl⟩ : ∃ k0, k = k0 + 1 := ⟨k - 1, by omega⟩
        apply Fin.ext
        rw [DrawVec.toDraws_apply v k (by omega)]
      refine ⟨v, hv, fun w hw => ?_⟩
      funext k
      have hk : k.val < m := by have := k.isLt; omega
      have hagree := shuffleLoop_draws_unique m pool hn hnd w.toDraws v.toDraws
        (hw.trans hv.symm) (k.val + 1) (by omega) (by omega)
      apply Fin.ext
      have h1 := DrawVec.toDraws_apply w k.val (by omega)
      have h2 := DrawVec.toDraws_apply v k.val (by omega)
      rw [hagree] at h1
      exact h1.symm.trans h2

theorem sampleQuestions_shuffle_bijective_witness :
    (TECH_DS_GENERIC.Nodup ∧ (TECH_DS_GENERIC.length : Int) ≤ 5) ∧
    (∀ v : DrawVec TECH_DS_GENERIC.length,
        (sampleQuestions v.toDraws TECH_DS_GENERIC (some 5)).Perm TECH_DS_GENERIC) ∧
    (∀ l : List Question, l.Perm TECH_DS_GENERIC →
        ∃! v : DrawVec TECH_DS_GENERIC.length,
          sampleQuestions v.toDraws TECH_DS_GENERIC (some 5) = l) ∧
    Fintype.card (DrawVec TECH_DS_GENERIC.length) = TECH_DS_GENERIC.length.factorial :=
  ⟨⟨by decide, by decide⟩,
    sampleQuestions_shuffle_bijective TECH_DS_GENERIC 5 (by decide) (by decide)⟩

/-! ## The banks and the questions handler -/

theorem sampleQuestions_eq_take {α : Type} (draw : Draws) (pool : List α) (k : Nat) :
    sampleQuestions draw pool (some (k : Int)) = (shuffle draw pool).take k := by
  unfold sampleQuestions slice0
  simp only [Option.getD_some, shuffle_length]
  have h0 : ¬ min (k : Int) (pool.length : Int) < 0 := by omega
  simp only [h0, if_false]
  by_cases hk : k ≤ pool.length
  · congr 1
    omega
  · rw [List.take_of_length_le (by rw [shuffle_length]; omega),
      List.take_of_length_le (by rw [shuffle_length]; omega)]

theorem sampleQuestions_length_nat {α : Type} (draw : Draws) (pool : List α) (k : Nat) :
    (sampleQuestions draw pool (some (k : Int))).length = min k pool.length := by
  rw [sampleQuestions_eq_take, List.length_take, shuffle_length]

theorem sampleQuestions_mem {α : Type} (draw : Draws) (pool : List α) (count : Option Int)
    (q : α) (h : q ∈ sampleQuestions draw pool count) : q ∈ pool :=
  (shuffle_perm draw pool).subset ((slice0_sublist _ _).subset h)

theorem callToLowerCase_ofOption (x : Option String) (d : String) :
    callToLowerCase (orDefaultValue (ofOption x) d) = .ok (toLowerCase (orDefault x d)) := by
  cases x with
  | none => rfl
  | some s =>
    by_cases hs : s = ""
    · simp [ofOption, orDefaultValue, orDefault, callToLowerCase, hs]
    · simp [ofOption, orDefaultValue, orDefault, callToLowerCase, hs]

/-- On strings and absent values the function on query values is
`getQuestionPool`, whatever the level is. -/
theorem getQuestionPoolOfQuery_ofOption (type role style lv : Option String)
    (level : QueryValue) :
    getQuestionPoolOfQuery (ofOption type) (ofOption role) level (ofOption style)
      = .ok (getQuestionPool type role lv style) := by
  unfold getQuestionPoolOfQuery getQuestionPool
  simp only [callToLowerCase_ofOption]
  split_ifs <;> rfl

theorem getQuestionPoolOfQuery_mem (type role level style : QueryValue)
    (pool : List Question) (h : getQuestionPoolOfQuery type role level style = .ok pool) :
    pool ∈ definedPools := by
  unfold getQuestionPoolOfQuery at h
  unfold definedPools
  split at h
  · exact absurd h (by simp)
  · split at h
    · exact absurd h (by simp)
    · split at h
      · exact absurd h (by simp)
      · split_ifs at h <;> cases h <;> simp

theorem withDefault_ofOption (x : Option String) (d : String) :
    withDefault (ofOption x) d = ofOption (some (x.getD d)) := by
  cases x <;> rfl

theorem questionsHandler_ofOption (draw : Draws) (type role style : Option String)
    (level : QueryValue) :
    questionsHandler draw (ofOption type) (ofOption role) level (ofOption style)
      = .json (sampleQuestions draw
          (getQuestionPool (some (type.getD "behavioral")) (some (role.getD "SWE")) none
            (some (style.getD "Generic"))) (some (5 : Nat))) := by
  unfold questionsHandler
  simp only [withDefault_ofOption]
  rw [getQuestionPoolOfQuery_ofOption _ _ _ none]
  rfl

theorem questionsHandler_json (draw : Draws) (type role level style : QueryValue)
    (qs : List Question) (h : questionsHandler draw type role level style = .json qs) :
    ∃ pool ∈ definedPools, qs = sampleQuestions draw pool (some (5 : Nat)) := by
  unfold questionsHandler at h
  simp only [] at h
  split at h
  · exact absurd h (by simp)
  · rename_i pool hpool
    refine ⟨pool, getQuestionPoolOfQuery_mem _ _ _ _ pool hpool, ?_⟩
    cases h
    rfl

theorem definedPools_length_ge_two : ∀ p ∈ definedPools, 2 ≤ p.length := by
  decide

theorem getQuestionPool_cases (type role level style : Option String) :
    getQuestionPool type role level style ∈ definedPools := by
  unfold getQuestionPool definedPools
  simp only []
  split_ifs <;> simp

/-- C11, amended: every defined question pool (`BEHAVIORAL_GENERIC`,
`TECH_SWE_FAANG_INTERN`, `TECH_SWE_GENERIC`, `TECH_DS_GENERIC`,
`TECH_PM_GENERIC`) has at least 2 questions, so the questions endpoint never
returns fewer than 2 questions: for every type, role and style that is a
string or absent, and every level, it answers with at least 2 questions, and
whatever the query values are, an answer with questions has at least 2. -/
theorem questionsHandler_at_least_two :
    (∀ p ∈ definedPools, 2 ≤ p.length) ∧
    (∀ (draw : Draws) (type role style : Option String) (level : QueryValue),
      ∃ qs, questionsHandler draw (ofOption type) (ofOption role) level (ofOption style)
          = .json qs ∧ 2 ≤ qs.length) ∧
    (∀ (draw : Draws) (type role level style : QueryValue) (qs : List Question),
      questionsHandler draw type role level style = .json qs → 2 ≤ qs.length) := by
  refine ⟨definedPools_length_ge_two, ?_, ?_⟩
  · intro draw type role style level
    refine ⟨_, questionsHandler_ofOption draw type role style level, ?_⟩
    rw [sampleQuestions_length_nat]
    have h := definedPools_length_ge_two _ (getQuestionPool_cases
      (some (type.getD "behavioral")) (some (role.getD "SWE")) none
      (some (style.getD "Generic")))
    omega
  · intro draw type role level style qs h
    obtain ⟨pool, hmem, rfl⟩ := questionsHandler_json draw type role level style qs h
    rw [sampleQuestions_length_nat]
    have h2 := definedPools_length_ge_two pool hmem
    omega

/-- C11, as stated, fails: `TECH_PM_GENERIC` is one of the defined pools and
has 2 questions, and the handler called with type "technical" and role
"product manager" responds with these 2 questions; and a request with a
repeated `type` key is answered with no questions at all. -/
theorem questionsHandler_product_manager_two :
    TECH_PM_GENERIC ∈ definedPools ∧ TECH_PM_GENERIC.length = 2 ∧
    ¬ (∀ p ∈ definedPools, 3 ≤ p.length) ∧
    (∃ qs, questionsHandler firstDraws (.str "technical") (.str "product manager")
        .undefined .undefined = .json qs ∧ qs.length = 2) ∧
    questionsHandler firstDraws (.array ["technical", "behavioral"]) .undefined .undefined
      .undefined = .serverError := by
  refine ⟨by decide, by decide, by decide, ⟨_, rfl, by decide⟩, by decide⟩

/-- C13: for every pool, every count of at least the length of the pool and
every outcome of the random draws, `sampleQuestions(pool, count)` is a
permutation of the whole pool: the same elements with the same multiplicities,
and the same length. -/
theorem sampleQuestions_full_perm {α : Type} (draw : Draws) (pool : List α) (count : Int)
    (hc : (pool.length : Int) ≤ count) :
    (sampleQuestions draw pool (some count)).Perm pool ∧
    (sampleQuestions draw pool (some count)).length = pool.length := by
  rw [sampleQuestions_of_length_le draw pool count hc]
  exact ⟨shuffle_perm draw pool, shuffle_length draw pool⟩

theorem sampleQuestions_full_perm_witness :
    ((TECH_DS_GENERIC.length : Int) ≤ 5) ∧
    (sampleQuestions firstDraws TECH_DS_GENERIC (some 5)).Perm TECH_DS_GENERIC ∧
    (sampleQuestions firstDraws TECH_DS_GENERIC (some 5)).length = TECH_DS_GENERIC.length :=
  ⟨by decide, sampleQuestions_full_perm firstDraws TECH_DS_GENERIC 5 (by decide)⟩

theorem getQuestionPool_behavioral (role level style : Option String) :
    getQuestionPool (some "behavioral") role level style = BEHAVIORAL_GENERIC := by
  have hne : toLowerCase (orDefault (some "behavioral") "behavioral") ≠ "technical" := by
    decide
  simp [getQuestionPool, hne]

/-- C15, amended: for every role and style that is a string or absent, every
level and every outcome of the random draws, the questions handler called
with type "behavioral" responds with exactly 5 questions, each of which has
"Behavioral" among its tags. -/
theorem questionsHandler_behavioral (draw : Draws) (role style : Option String)
    (level : QueryValue) :
    ∃ qs, questionsHandler draw (.str "behavioral") (ofOption role) level (ofOption style)
        = .json qs ∧ qs.length = 5 ∧ ∀ q ∈ qs, "Behavioral" ∈ q.tags := by
  have hpool : questionsHandler draw (.str "behavioral") (ofOption role) level (ofOption style)
      = .json (sampleQuestions draw BEHAVIORAL_GENERIC (some (5 : Nat))) := by
    have h := questionsHandler_ofOption draw (some "behavioral") role style level
    simp only [Option.getD_some] at h
    rw [getQuestionPool_behavioral] at h
    exact h
  refine ⟨_, hpool, ?_, fun q hq => ?_⟩
  · rw [sampleQuestions_length_nat]
    decide
  · have hall : ∀ p ∈ BEHAVIORAL_GENERIC, "Behavioral" ∈ p.tags := by decide
    exact hall q (sampleQuestions_mem draw _ _ q hq)

/-- C15, as stated, fails: for the request
`type=behavioral&role=SWE&role=PM` the role is an array, `getQuestionPool`
throws at `(role || "SWE").toLowerCase()` before it tests the type, and the
request is answered with status 500 and no questions. The same holds for a
style that is an object. -/
theorem questionsHandler_behavioral_repeated_role :
    questionsHandler firstDraws (.str "behavioral") (.array ["SWE", "PM"]) .undefined
      .undefined = .serverError ∧
    questionsHandler firstDraws (.str "behavioral") .undefined .undefined
      (.object [("a", "FAANG")]) = .serverError := by
  decide

/-- C16: for every level and every outcome of the random draws, the questions
handler called with type "technical", role "SWE" and style "FAANG" responds
with questions, all of which are elements of `TECH_SWE_FAANG_INTERN` and have
"Technical" among their tags. The level may be any query value: absent, a
string, an array or an object. -/
theorem questionsHandler_technical_swe_faang (draw : Draws) (level : QueryValue) :
    ∃ qs, questionsHandler draw (.str "technical") (.str "SWE") level (.str "FAANG")
        = .json qs ∧
      ∀ q ∈ qs, q ∈ TECH_SWE_FAANG_INTERN ∧ "Technical" ∈ q.tags := by
  have hpool : questionsHandler draw (.str "technical") (.str "SWE") level (.str "FAANG")
      = .json (sampleQuestions draw TECH_SWE_FAANG_INTERN (some (5 : Nat))) :=
    questionsHandler_ofOption draw (some "technical") (some "SWE") (some "FAANG") level
  refine ⟨_, hpool, fun q hq => ?_⟩
  have hall : ∀ p ∈ TECH_SWE_FAANG_INTERN, "Technical" ∈ p.tags := by decide
  have hmem := sampleQuestions_mem draw _ _ q hq
  exact ⟨hmem, hall q hmem⟩

/-- C17: the five question pools are pairwise disjoint and none contains the
same question twice: listed one after the other, the pools have no duplicate,
so every question belongs to exactly one pool. -/
theorem definedPools_disjoint :
    definedPools.Pairwise List.Disjoint ∧ (∀ p ∈ definedPools, p.Nodup) ∧
    definedPools.flatten.Nodup := by
  have h : definedPools.flatten.Nodup := by decide
  have h2 := List.nodup_flatten.mp h
  exact ⟨h2.2, h2.1, h⟩

/-- C19, amended: the list `TECH_SWE_FAANG_INTERN`, from which the
technical/SWE/FAANG questions are drawn, has exactly 10 items. -/
theorem TECH_SWE_FAANG_INTERN_length : TECH_SWE_FAANG_INTERN.length = 10 := by
  decide

/-- C19, as stated, fails: `TECH_SWE_FAANG_INTERN` does not have 12 items. -/
theorem TECH_SWE_FAANG_INTERN_length_ne_twelve : TECH_SWE_FAANG_INTERN.length ≠ 12 := by
  decide

/-- C20: an empty-string argument of `getQuestionPool` is treated like an
absent one: type "" gives the same pool as an absent type and as type
"behavioral", role "" the same as an absent role and as role "SWE", style ""
the same as an absent style and as style "Generic"; in particular type
"technical" with role "" and style "faang" gives `TECH_SWE_FAANG_INTERN`. -/
theorem getQuestionPool_empty_string (type role level style : Option String) :
    (getQuestionPool (some "") role level style = getQuestionPool none role level style ∧
      getQuestionPool (some "") role level style
        = getQuestionPool (some "behavioral") role level style) ∧
    (getQuestionPool type (some "") level style = getQuestionPool type none level style ∧
      getQuestionPool type (some "") level style
        = getQuestionPool type (some "SWE") level style) ∧
    (getQuestionPool type role level (some "") = getQuestionPool type role level none ∧
      getQuestionPool type role level (some "")
        = getQuestionPool type role level (some "Generic")) ∧
    getQuestionPool (some "technical") (some "") level (some "faang")
      = TECH_SWE_FAANG_INTERN :=
  ⟨⟨rfl, rfl⟩, ⟨rfl, rfl⟩, ⟨rfl, rfl⟩, rfl⟩

/-! ## The pool argument is not mutated -/

theorem readArray_set_self {α : Type} (s : Store α) (r : Nat) (a : List α)
    (h : r < s.length) : readArray (s.set r a) r = a := by
  simp [readArray, List.getElem?_set_self h]

theorem readArray_append_length {α : Type} (s : Store α) (a : List α) :
    readArray (s ++ [a]) s.length = a := by
  simp [readArray]

theorem shuffleLoopRef_eq {α : Type} (draw : Draws) (arr : Nat) :
    ∀ (i : Nat) (s : Store α), arr < s.length →
      shuffleLoopRef draw arr i s = s.set arr (shuffleLoop draw i (readArray s arr))
  | 0, s, h => by
    rw [shuffleLoopRef, shuffleLoop]
    apply List.ext_getElem?
    intro k
    by_cases hk : arr = k
    · subst hk
      rw [List.getElem?_set_self h]
      simp [readArray, List.getElem?_eq_getElem h]
    · rw [List.getElem?_set_ne hk]
  | i + 1, s, h => by
    rw [shuffleLoopRef, shuffleLoop, shuffleLoopRef_eq draw arr i _ (by simpa [swapRef] using h)]
    unfold swapRef
    rw [readArray_set_self s arr _ h, List.set_set]

/-- C14: `sampleQuestions` never mutates its pool argument. With the arrays
held in a store, for every store, every pool in it, every count and every
outcome of the random draws: after the call the pool, and every other array
that existed before the call, has the same elements in the same order as
before; the swaps were made on the fresh copy. The returned array holds what
`sampleQuestions` returns on the elements of the pool. -/
theorem sampleQuestionsRef_frame {α : Type} (draw : Draws) (s : Store α) (pool : Nat)
    (count : Option Int) (hp : pool < s.length) :
    readArray (sampleQuestionsRef draw s pool count).1 pool = readArray s pool ∧
    (∀ r, r < s.length → (sampleQuestionsRef draw s pool count).1[r]? = s[r]?) ∧
    readArray (sampleQuestionsRef draw s pool count).1 (sampleQuestionsRef draw s pool count).2
      = sampleQuestions draw (readArray s pool) count := by
  have hs1 : s.length < (s ++ [readArray s pool]).length := by simp
  have hread := readArray_append_length s (readArray s pool)
  have hold : ∀ r, r < s.length → (sampleQuestionsRef draw s pool count).1[r]? = s[r]? := by
    intro r hr
    simp only [sampleQuestionsRef, allocArray]
    rw [shuffleLoopRef_eq draw _ _ _ hs1, hread]
    rw [List.getElem?_append_left (by simp; omega), List.getElem?_set_ne (by omega),
      List.getElem?_append_left hr]
  refine ⟨?_, hold, ?_⟩
  · simp only [readArray, hold pool hp]
  · simp only [sampleQuestionsRef, allocArray]
    rw [readArray_append_length, shuffleLoopRef_eq draw _ _ _ hs1, hread,
      readArray_set_self _ _ _ hs1]
    rfl

theorem sampleQuestionsRef_frame_witness :
    (0 < twoBanksStore.length) ∧
    readArray (sampleQuestionsRef firstDraws twoBanksStore 0 (some 5)).1 0
      = readArray twoBanksStore 0 ∧
    (∀ r, r < twoBanksStore.length →
      (sampleQuestionsRef firstDraws twoBanksStore 0 (some 5)).1[r]? = twoBanksStore[r]?) ∧
    readArray (sampleQuestionsRef firstDraws twoBanksStore 0 (some 5)).1
        (sampleQuestionsRef firstDraws twoBanksStore 0 (some 5)).2
      = sampleQuestions firstDraws (readArray twoBanksStore 0) (some 5) :=
  ⟨by decide, sampleQuestionsRef_frame firstDraws twoBanksStore 0 (some 5) (by decide)⟩

/-! ## The result depends on the draws -/

theorem sampleQuestions_head? {α : Type} (draw : Draws) (pool : List α) (count : Int)
    (hc : 1 ≤ count) :
    (sampleQuestions draw pool (some count)).head? = (shuffle draw pool).head? := by
  unfold sampleQuestions slice0
  simp only [Option.getD_some]
  cases hsh : shuffle draw pool with
  | nil => simp
  | cons a as =>
    have h0 : ¬ min count (((a :: as).length : Nat) : Int) < 0 := by omega
    simp only [h0, if_false]
    obtain ⟨k, hk⟩ : ∃ k, (min (min count (((a :: as).length : Nat) : Int))
        (((a :: as).length : Nat) : Int)).toNat = k + 1 := by
      refine ⟨(min (min count (((a :: as).length : Nat) : Int))
        (((a :: as).length : Nat) : Int)).toNat - 1, ?_⟩
      simp only [List.length_cons]
      omega
    rw [hk]
    rfl

theorem exists_shuffle_head {α : Type} (pool : List α) (x : α) (hx : x ∈ pool) :
    ∃ d : Draws, (shuffle d pool).head? = some x := by
  obtain ⟨s, t, hst⟩ := List.append_of_mem hx
  have hperm : (x :: (s ++ t)).Perm pool := by
    rw [hst]
    exact List.perm_middle.symm
  obtain ⟨m, hm⟩ : ∃ m, pool.length = m + 1 := by
    refine ⟨pool.length - 1, ?_⟩
    have := List.length_pos_of_mem hx
    omega
  obtain ⟨d, hd⟩ := shuffleLoop_draws_exist m pool hm _ hperm
  refine ⟨d, ?_⟩
  unfold shuffle
  rw [hm, Nat.add_sub_cancel, hd]
  rfl

/-- C18: the output of `sampleQuestions` is not determined by its arguments
alone: for every pool with at least two distinct questions and every count of
at least 1, there are two outcomes of the random draws for which
`sampleQuestions(pool, count)` returns different lists. -/
theorem sampleQuestions_not_determined {α : Type} (pool : List α) (count : Int) (x y : α)
    (hx : x ∈ pool) (hy : y ∈ pool) (hxy : x ≠ y) (hc : 1 ≤ count) :
    ∃ d1 d2 : Draws,
      sampleQuestions d1 pool (some count) ≠ sampleQuestions d2 pool (some count) := by
  obtain ⟨d1, h1⟩ := exists_shuffle_head pool x hx
  obtain ⟨d2, h2⟩ := exists_shuffle_head pool y hy
  refine ⟨d1, d2, fun heq => hxy ?_⟩
  have hh := congrArg List.head? heq
  rw [sampleQuestions_head? d1 pool count hc, sampleQuestions_head? d2 pool count hc,
    h1, h2] at hh
  exact Option.some.inj hh

theorem sampleQuestions_not_determined_witness :
    ((3 : Nat) ∈ [3, 4, 4] ∧ (4 : Nat) ∈ [3, 4, 4] ∧ (3 : Nat) ≠ 4 ∧ (1 : Int) ≤ 1) ∧
    ∃ d1 d2 : Draws,
      sampleQuestions d1 [3, 4, 4] (some 1) ≠ sampleQuestions d2 [3, 4, 4] (some 1) :=
  ⟨⟨by decide, by decide, by decide, by decide⟩,
    sampleQuestions_not_determined [3, 4, 4] 1 3 4 (by decide) (by decide) (by decide)
      (by decide)⟩

/-! ## Counting the draw vectors of an ordered sample -/

theorem DrawVec.shuffle_surjective {α : Type} :
    ∀ (n : Nat) (pool : List α), pool.length = n → ∀ l : List α, l.Perm pool →
      ∃ v : DrawVec n, shuffle v.toDraws pool = l
  | 0, pool, hn, l, hl => by
    have hp : pool = [] := List.eq_nil_of_length_eq_zero hn
    subst hp
    have hl0 : l = [] := List.perm_nil.mp hl
    subst hl0
    exact ⟨fun k => absurd k.isLt (by simp), rfl⟩
  | m + 1, pool, hn, l, hl => by
    obtain ⟨d, hd⟩ := shuffleLoop_draws_exist m pool hn l hl
    have hbound : ∀ k : Fin (m + 1 - 1), (d (k.val + 1)).val < k.val + 2 := fun k =>
      (d (k.val + 1)).isLt
    refine ⟨fun k => ⟨(d (k.val + 1)).val, hbound k⟩, ?_⟩
    unfold shuffle
    rw [hn, ← hd]
    change shuffleLoop _ m pool = shuffleLoop d m pool
    apply shuffleLoop_congr
    intro k h1 h2
    obtain ⟨k, rfl⟩ : ∃ k0, k = k0 + 1 := ⟨k - 1, by omega⟩
    apply Fin.ext
    rw [DrawVec.toDraws_apply _ k (by omega)]

theorem DrawVec.shuffle_injective {α : Type} :
    ∀ (n : Nat) (pool : List α), pool.length = n → pool.Nodup →
      ∀ v w : DrawVec n, shuffle v.toDraws pool = shuffle w.toDraws pool → v = w
  | 0, _, _, _, v, w, _ => by
    funext k
    exact absurd k.isLt (by simp)
  | m + 1, pool, hn, hnd, v, w, h => by
    unfold shuffle at h
    rw [hn, Nat.add_sub_cancel] at h
    funext k
    have hk : k.val < m := by have := k.isLt; omega
    have hagree := shuffleLoop_draws_unique m pool hn hnd v.toDraws w.toDraws h
      (k.val + 1) (by omega) (by omega)
    apply Fin.ext
    have h1 := DrawVec.toDraws_apply v k.val (by omega)
    have h2 := DrawVec.toDraws_apply w k.val (by omega)
    rw [hagree] at h1
    exact h1.symm.trans h2

/-- C12: for a pool of `n` pairwise-distinct questions and an ordered sequence
`l` of `k` distinct pool elements (so `0 ≤ k ≤ n`), `sampleQuestions(pool, k)`
returns `l` for exactly `(n-k)!` of the `n!` draw vectors `(j_{n-1}, ..., j_1)`
with `0 ≤ j_i ≤ i`. -/
theorem sampleQuestions_ordered_sample_count {α : Type} [DecidableEq α]
    (pool l : List α) (hnd : pool.Nodup) (hl : l.Nodup) (hsub : ∀ x ∈ l, x ∈ pool) :
    l.length ≤ pool.length ∧
    Fintype.card {v : DrawVec pool.length //
        sampleQuestions v.toDraws pool (some (l.length : Int)) = l}
      = (pool.length - l.length).factorial ∧
    Fintype.card (DrawVec pool.length) = pool.length.factorial := by
  have hsp : l.Subperm pool := List.subperm_of_subset hl hsub
  have hlen : l.length ≤ pool.length := hsp.length_le
  obtain ⟨l0, hl0, hsl⟩ := hsp
  obtain ⟨rest, hrest⟩ := hsl.exists_perm_append
  have hpool : (l ++ rest).Perm pool := (hrest.trans (hl0.append_right rest)).symm
  have hrlen : rest.length = pool.length - l.length := by
    have := hpool.length_eq
    rw [List.length_append] at this
    omega
  have hrnd : rest.Nodup :=
    (hpool.nodup_iff.mpr hnd).sublist (List.sublist_append_right l rest)
  refine ⟨hlen, ?_, DrawVec.card _⟩
  rw [Fintype.card_subtype]
  have hinj : Function.Injective (fun v : DrawVec pool.length => shuffle v.toDraws pool) :=
    fun v w h => DrawVec.shuffle_injective pool.length pool rfl hnd v w h
  rw [← Finset.card_image_of_injective _ hinj]
  have himg : (Finset.univ.filter (fun v : DrawVec pool.length =>
        sampleQuestions v.toDraws pool (some (l.length : Int)) = l)).image
        (fun v : DrawVec pool.length => shuffle v.toDraws pool)
      = rest.permutations.toFinset.image (fun r => l ++ r) := by
    ext t
    simp only [Finset.mem_image, Finset.mem_filter, Finset.mem_univ, true_and,
      List.mem_toFinset, List.mem_permutations, sampleQuestions_eq_take]
    constructor
    · rintro ⟨v, htake, rfl⟩
      have hdec : l ++ (shuffle v.toDraws pool).drop l.length = shuffle v.toDraws pool := by
        conv_rhs => rw [← List.take_append_drop l.length (shuffle v.toDraws pool), htake]
      refine ⟨(shuffle v.toDraws pool).drop l.length, ?_, hdec⟩
      have h1 : (l ++ (shuffle v.toDraws pool).drop l.length).Perm (l ++ rest) := by
        rw [hdec]
        exact (shuffle_perm _ pool).trans hpool.symm
      exact (List.perm_append_left_iff l).mp h1
    · rintro ⟨r, hr, rfl⟩
      obtain ⟨v, hv⟩ := DrawVec.shuffle_surjective pool.length pool rfl (l ++ r)
        ((hr.append_left l).trans hpool)
      exact ⟨v, by rw [hv, List.take_left], hv⟩
  rw [himg, Finset.card_image_of_injective _ (List.append_right_injective l),
    List.toFinset_card_of_nodup (List.nodup_permutations rest hrnd),
    List.length_permutations, hrlen]

theorem sampleQuestions_ordered_sample_count_witness :
    (([10, 20, 30, 40] : List Nat).Nodup ∧ ([30, 10] : List Nat).Nodup ∧
      ∀ x ∈ ([30, 10] : List Nat), x ∈ ([10, 20, 30, 40] : List Nat)) ∧
    ([30, 10] : List Nat).length ≤ ([10, 20, 30, 40] : List Nat).length ∧
    Fintype.card {v : DrawVec ([10, 20, 30, 40] : List Nat).length //
        sampleQuestions v.toDraws [10, 20, 30, 40]
          (some (([30, 10] : List Nat).length : Int)) = [30, 10]}
      = (([10, 20, 30, 40] : List Nat).length - ([30, 10] : List Nat).length).factorial ∧
    Fintype.card (DrawVec ([10, 20, 30, 40] : List Nat).length)
      = ([10, 20, 30, 40] : List Nat).length.factorial :=
  ⟨⟨by decide, by decide, by decide⟩,
    sampleQuestions_ordered_sample_count [10, 20, 30, 40] [30, 10] (by decide) (by decide)
      (by decide)⟩

end LockedInterview
